import Mathlib

/-!
Verification development for `market_fetcher.py` — the periodic
discover/fetch/dedup/append engine for 15-minute prediction-market slots.

The shallow embedding below translates the source functions into Lean:
pure computations become Lean functions, the file-backed log becomes an
explicit `Option String` state (none = file absent), the thread pool's
result dictionary becomes an explicit partial map `(slot index, asset) ⇀
MarketEntry` (which captures arbitrary completion order and arbitrary
per-task failure), and exceptions become `Except`/sum-type values.
-/

namespace MarketFetcher

/-! ## Configuration constants (module-level constants of the source) -/

def INTERVAL : Nat := 900

def FETCH_INTERVAL : Nat := 900

def COUNT : Nat := 10

def CRYPTOS : List String := ["btc", "eth", "sol", "xrp"]

/-! ## Civil calendar and the America/New_York timezone

`datetime.datetime.fromtimestamp(ts, tz=ZoneInfo("America/New_York"))`
followed by `strftime("%Y-%m-%d %I:%M %p EST")` is modelled by converting
the epoch second to local time with the zone's UTC offset and rendering
the proleptic-Gregorian civil date.  The civil conversions use the
standard era-based algorithm; the offset follows the US daylight-saving
rules in force since 2007 (DST from the second Sunday of March 07:00 UTC
to the first Sunday of November 06:00 UTC), which is what the IANA zone
data gives for the years this engine runs in. -/

/-- Civil date (year, month, day) of a day count since 1970-01-01. -/
def civilFromDays (z : Nat) : Nat × Nat × Nat :=
  let z' := z + 719468
  let era := z' / 146097
  let doe := z' % 146097
  let yoe := (doe - doe / 1460 + doe / 36524 - doe / 146096) / 365
  let y := yoe + era * 400
  let doy := doe - (365 * yoe + yoe / 4 - yoe / 100)
  let mp := (5 * doy + 2) / 153
  let d := doy - (153 * mp + 2) / 5 + 1
  let m := if mp < 10 then mp + 3 else mp - 9
  (if m ≤ 2 then y + 1 else y, m, d)

/-- Day count since 1970-01-01 of a civil date (valid for years ≥ 1970). -/
def daysFromCivil (y m d : Nat) : Nat :=
  let y' := if m ≤ 2 then y - 1 else y
  let era := y' / 400
  let yoe := y' % 400
  let mp := if 2 < m then m - 3 else m + 9
  let doy := (153 * mp + 2) / 5 + d - 1
  let doe := yoe * 365 + yoe / 4 - yoe / 100 + doy
  era * 146097 + doe - 719468

/-- `daysFromCivil` on a packed triple. -/
def daysFromCivilT (c : Nat × Nat × Nat) : Nat :=
  daysFromCivil c.1 c.2.1 c.2.2

/-- Day of week of a day count, 0 = Sunday (1970-01-01 was a Thursday). -/
def dayOfWeek (z : Nat) : Nat := (z + 4) % 7

/-- Epoch second at which DST starts in year `y`:
second Sunday of March, 02:00 EST = 07:00 UTC. -/
def dstStart (y : Nat) : Nat :=
  let mar1 := daysFromCivil y 3 1
  (mar1 + 7 + (7 - dayOfWeek mar1) % 7) * 86400 + 7 * 3600

/-- Epoch second at which DST ends in year `y`:
first Sunday of November, 02:00 EDT = 06:00 UTC. -/
def dstEnd (y : Nat) : Nat :=
  let nov1 := daysFromCivil y 11 1
  (nov1 + (7 - dayOfWeek nov1) % 7) * 86400 + 6 * 3600

/-- UTC offset of America/New_York at epoch second `ts`, in seconds west
of UTC: 14400 (EDT) during DST, 18000 (EST) otherwise. -/
def etOffset (ts : Nat) : Nat :=
  let y := (civilFromDays (ts / 86400)).1
  if dstStart y ≤ ts ∧ ts < dstEnd y then 14400 else 18000

/-- Local (wall-clock) seconds corresponding to epoch second `ts`. -/
def localSecs (ts : Nat) : Nat := ts - etOffset ts

/-! ## strftime("%Y-%m-%d %I:%M %p EST") -/

def digitChar (n : Nat) : Char := Char.ofNat (48 + n)

/-- Two-digit zero-padded field (`%m`, `%d`, `%I`, `%M`). -/
def pad2 (n : Nat) : List Char := [digitChar (n / 10 % 10), digitChar (n % 10)]

/-- Four-digit year field (`%Y`; all years in play are four-digit). -/
def pad4 (n : Nat) : List Char :=
  [digitChar (n / 1000 % 10), digitChar (n / 100 % 10),
   digitChar (n / 10 % 10), digitChar (n % 10)]

def dispDate (ts : Nat) : Nat × Nat × Nat := civilFromDays (localSecs ts / 86400)

/-- Local hour of day, 0–23 (`%H` basis for `%I`/`%p`). -/
def dispHour (ts : Nat) : Nat := localSecs ts % 86400 / 3600

/-- Local minute, 0–59 (`%M`). -/
def dispMinute (ts : Nat) : Nat := localSecs ts % 86400 % 3600 / 60

/-- 12-hour clock hour (`%I`): 12 for 0 and 12, else hour mod 12. -/
def hour12 (h : Nat) : Nat := if h % 12 = 0 then 12 else h % 12

/-- Character list of `strftime("%Y-%m-%d %I:%M %p EST")` at local time. -/
def displayChars (ts : Nat) : List Char :=
  pad4 (dispDate ts).1 ++ '-' :: pad2 (dispDate ts).2.1 ++ '-' :: pad2 (dispDate ts).2.2
    ++ ' ' :: pad2 (hour12 (dispHour ts)) ++ ':' :: pad2 (dispMinute ts)
    ++ ' ' :: (if dispHour ts < 12 then 'A' else 'P') :: ['M', ' ', 'E', 'S', 'T']

/-- The display label of line 79 of the source:
`date_obj.strftime("%Y-%m-%d %I:%M %p EST")` of
`datetime.datetime.fromtimestamp(next_timestamp, tz=ET_TZ)`. -/
def displayTime (ts : Nat) : String := String.mk (displayChars ts)

/-! ## Data model

A resolver result dict `{"url": ..., "yes": ..., "no": ...}` becomes a
record; the slot dict `{"label": ..., "markets": {...}}` becomes a record
whose `markets` is an association list in insertion order (Python dicts
preserve insertion order and the resolver inserts the four assets in
`CRYPTOS` order). -/

structure MarketEntry where
  url : String
  yes : String
  no : String
deriving DecidableEq, Repr

structure Slot where
  label : String
  markets : List (String × MarketEntry)
deriving DecidableEq, Repr

/-- One entry of `slot_meta` (line 80): display label and unix timestamp. -/
structure SlotMeta where
  label : String
  timestamp : Nat
deriving DecidableEq, Repr

/-! ## Instrument naming (lines 52 and 83) -/

def marketSlug (coin : String) (ts : Nat) : String :=
  coin ++ "-updown-15m-" ++ toString ts

def eventUrl (slug : String) : String :=
  "https://polymarket.com/event/" ++ slug

/-! ## Single-market fetch (lines 50–61)

The external world seen by `_fetch_single_market` is one of:
* `netError` — `requests.get` (or anything inside the `try`) raised;
* `httpResp status body` — a response arrived with the given status code;
  `body` is the outcome of `json.loads(resp.json().get("clobTokenIds",
  "[]"))`: `.ok tokens` when that chain produced a list of token strings
  (a missing `clobTokenIds` key decodes the default `"[]"` to `.ok []`),
  `.error ()` when decoding raised (malformed body).  Every exception is
  caught by the blanket `except` and becomes the `("Error", "Error")`
  return; a non-200 status falls through to the same return. -/

inductive ApiResult where
  | netError : ApiResult
  | httpResp (status : Nat) (body : Except Unit (List String)) : ApiResult
deriving Repr

def fetch_single_market (slug crypto_label : String) (api : ApiResult) :
    String × String × String × String :=
  let url := eventUrl slug
  match api with
  | .netError => (crypto_label, url, "Error", "Error")
  | .httpResp status body =>
    if status = 200 then
      match body with
      | .error _ => (crypto_label, url, "Error", "Error")
      | .ok tokens =>
        (crypto_label, url,
         (tokens[0]?).getD "N/A", (tokens[1]?).getD "N/A")
    else (crypto_label, url, "Error", "Error")

/-! ## Slot generation and resolver assembly (lines 64–109) -/

/-- `last_interval = now - (now % INTERVAL)` (line 71). -/
def last_interval (now : Nat) : Nat := now - now % INTERVAL

/-- `next_timestamp = last_interval + (i * INTERVAL)` for the 1-based
loop index `i` (line 77). -/
def slotTimestamp (now i : Nat) : Nat := last_interval now + i * INTERVAL

/-- The `slot_meta` entry for 1-based index `i` (lines 78–80). -/
def slotMeta (now i : Nat) : SlotMeta :=
  ⟨displayTime (slotTimestamp now i), slotTimestamp now i⟩

/-- The `slot_meta` list built by the loop `for i in range(1, COUNT + 1)`. -/
def slotMetas (now : Nat) : List SlotMeta :=
  (List.range COUNT).map fun j => slotMeta now (j + 1)

/-- The generated slot timestamps, in emission order. -/
def slotTimestamps (now : Nat) : List Nat :=
  (slotMetas now).map fun m => m.timestamp

/-- The `results` dictionary of line 87 as a partial map
`(slot_idx, crypto) ⇀ MarketEntry` (0-based slot index, upper-cased asset
label).  Keys `(idx, crypto_label)` are unique across the submitted
tasks, so the dict built from `as_completed` is this map whatever order
the futures complete in; a pair that never produced a result is `none`. -/
def ResolverResults : Type := Nat → String → Option MarketEntry

/-- Python's `str.upper()` (ASCII asset symbols only). -/
def pyUpper (s : String) : String := String.mk (s.data.map Char.toUpper)

/-- The `markets` dict assembled for 0-based slot `i` (lines 102–106):
one entry per tracked asset, `results.get(..., {"url": "", "yes":
"Error", "no": "Error"})`. -/
def slotMarkets (results : ResolverResults) (i : Nat) :
    List (String × MarketEntry) :=
  CRYPTOS.map fun coin =>
    (pyUpper coin, (results i (pyUpper coin)).getD ⟨"", "Error", "Error"⟩)

/-- `fetch_upcoming_slots` (lines 64–109), with the network/thread-pool
phase abstracted into the `results` map it produces. -/
def fetch_upcoming_slots (now : Nat) (results : ResolverResults) : List Slot :=
  (List.range COUNT).map fun i =>
    ⟨(slotMeta now (i + 1)).label, slotMarkets results i⟩

/-! ## The assembled slot dict, at dict level (lines 100–107)

`slot = {"label": slot_meta[i]["label"], "markets": {}}` followed by the
per-asset inserts builds a dict with exactly the keys `"label"` and
`"markets"`; this mirror of that dict literal keeps the key structure
explicit so record-shape statements can be made about it. -/

inductive FieldVal where
  | vStr (s : String) : FieldVal
  | vMarkets (ms : List (String × MarketEntry)) : FieldVal
deriving DecidableEq, Repr

def assembledSlotEntries (now : Nat) (results : ResolverResults) (i : Nat) :
    List (String × FieldVal) :=
  [("label", .vStr (slotMeta now (i + 1)).label),
   ("markets", .vMarkets (slotMarkets results i))]

/-! ## Persisted-state reader (lines 42–47)

`re.findall(r"🕒\s*Slot:\s*(.+)", text)`: scan left to right; at each
`🕒`, consume `\s*` (greedy, no backtracking needed because `S` is not a
whitespace character), the literal `Slot:`, then `\s*(.+)` with the
regex engine's greedy backtracking: the trailing `\s*` first consumes
the maximal whitespace run, then gives characters back one at a time
until `.+` can match at least one non-newline character, which then
extends greedily to the end of the line.  Scanning resumes after the end
of a match (matches are non-overlapping); on failure it advances one
character.  `\s` is Python's unicode whitespace class, `.` matches
everything except `\n`.  The fuel argument of the scanner is the length
of the remaining input, which suffices because every step consumes at
least one character. -/

/-- Python's `\s` / `str.isspace` character class. -/
def pyWsChar (c : Char) : Bool :=
  c.toNat ∈ [9, 10, 11, 12, 13, 28, 29, 30, 31, 32, 133, 160, 5760,
    8192, 8193, 8194, 8195, 8196, 8197, 8198, 8199, 8200, 8201, 8202,
    8232, 8233, 8239, 8287, 12288]

/-- Consume a literal character sequence, or fail. -/
def dropLit : List Char → List Char → Option (List Char)
  | [], cs => some cs
  | _ :: _, [] => none
  | l :: ls, c :: cs => if c = l then dropLit ls cs else none

/-- Greedy-backtracking match of `\s*(.+)`: `wr` is the reversed maximal
whitespace run already consumed by `\s*`, `t` what follows it.  Returns
the capture of `(.+)` and the rest of the input after the match. -/
def capTry : List Char → List Char → Option (List Char × List Char)
  | [], t =>
    match t with
    | c :: _ =>
      if c = '\n' then none
      else some (t.takeWhile (fun x => x ≠ '\n'), t.dropWhile (fun x => x ≠ '\n'))
    | [] => none
  | w :: wr, t =>
    match t with
    | c :: _ =>
      if c = '\n' then capTry wr (w :: t)
      else some (t.takeWhile (fun x => x ≠ '\n'), t.dropWhile (fun x => x ≠ '\n'))
    | [] => capTry wr (w :: t)

/-- Try to complete a match of `\s*Slot:\s*(.+)` on the input following
a `🕒`. -/
def matchAfterClock (cs : List Char) : Option (List Char × List Char) :=
  match dropLit ['S', 'l', 'o', 't', ':'] (cs.dropWhile pyWsChar) with
  | none => none
  | some cs2 => capTry (cs2.takeWhile pyWsChar).reverse (cs2.dropWhile pyWsChar)

/-- The findall scan; returns the capture groups in match order. -/
def scanLabelsF : Nat → List Char → List (List Char)
  | 0, _ => []
  | _, [] => []
  | fuel + 1, c :: cs =>
    if c = '🕒' then
      match matchAfterClock cs with
      | some (cap, rest) => cap :: scanLabelsF fuel rest
      | none => scanLabelsF fuel cs
    else scanLabelsF fuel cs

/-- `re.findall(r"🕒\s*Slot:\s*(.+)", text)`. -/
def findLabels (text : String) : List String :=
  (scanLabelsF text.data.length text.data).map String.mk

/-- `get_existing_slot_labels` (lines 42–47): absent file gives the
empty set.  The Python `set(...)` is modelled by the findall list itself;
only membership in it is ever consumed, and membership in the set and in
the list coincide. -/
def get_existing_slot_labels (file : Option String) : List String :=
  match file with
  | none => []
  | some text => findLabels text

/-! ## Block formatting and log append (lines 112–138) -/

/-- Python's `sep.join(strs)`. -/
def joinWith (sep : String) : List String → String
  | [] => ""
  | [s] => s
  | s :: rest => s ++ sep ++ joinWith sep rest

/-- `format_slot_block` (lines 112–121). -/
def format_slot_block (slot : Slot) : String :=
  joinWith "\n"
    (("🕒 Slot: " ++ slot.label) ::
      (["BTC", "ETH", "SOL", "XRP"].flatMap fun crypto =>
        match slot.markets.lookup crypto with
        | none => []
        | some m =>
          ["   " ++ crypto ++ ": " ++ m.url,
           "        ✅ YES: " ++ m.yes,
           "        ❌ NO : " ++ m.no]))

/-- Python's `str.rstrip()` on the character list. -/
def rstripChars (cs : List Char) : List Char :=
  (cs.reverse.dropWhile pyWsChar).reverse

def pyRstrip (s : String) : String := String.mk (rstripChars s.data)

/-- The 70-dash separator line. -/
def dash70 : String := String.mk (List.replicate 70 '-')

/-- Lines 131–133: `rstrip`, then if the text ends with the separator,
drop it and `rstrip` again. -/
def stripSepEnd (text : String) : String :=
  let r := pyRstrip text
  if 70 ≤ r.data.length ∧ r.data.drop (r.data.length - 70) = dash70.data then
    pyRstrip (String.mk (r.data.take (r.data.length - 70)))
  else r

/-- `append_new_slots` (lines 124–138) as a transformation of the log
file content (`none` = file absent); returns the new content and the
reported count. -/
def append_new_slots (file : Option String) (new_slots : List Slot) :
    Option String × Nat :=
  if new_slots.isEmpty then (file, 0)
  else
    let existing := match file with
      | none => ""
      | some text => stripSepEnd text
    let newContent := existing ++ "\n\n"
      ++ joinWith "\n\n" (new_slots.map format_slot_block)
      ++ "\n\n" ++ dash70 ++ "\n"
    (some newContent, new_slots.length)

/-! ## Dedup & validator and the discovery pipeline (lines 141–173) -/

/-- The sentinel tuple of line 157. -/
def sentinelTokens : List String := ["Not indexed", "Error", "N/A"]

/-- `valid_tokens` (lines 155–158): how many of the slot's market
entries have a `yes` token outside the sentinel set. -/
def validTokens (slot : Slot) : Nat :=
  (slot.markets.map Prod.snd).countP fun m => !(sentinelTokens.contains m.yes)

/-- The dedup/validation loop (lines 152–165): keep, in order, the
fetched slots whose label is not among the existing labels and whose
valid-token count meets the quorum. -/
def newSlotsOf (existing : List String) (fetched : List Slot) : List Slot :=
  fetched.filter fun slot =>
    !(existing.contains slot.label) && decide (3 ≤ validTokens slot)

/-- `discover_and_append` (lines 141–173): read the existing labels,
filter the fetched slots, and append when anything is new.  Returns the
new log content, the accepted slots (the function's return value), and
the appended count. -/
def discover_and_append (file : Option String) (fetched : List Slot) :
    Option String × List Slot × Nat :=
  let existing := get_existing_slot_labels file
  let news := newSlotsOf existing fetched
  if news.isEmpty then (file, news, 0)
  else ((append_new_slots file news).1, news, (append_new_slots file news).2)

/-! ## The scheduler loop (lines 176–183)

One cycle's outcome is either a normal return of `discover_and_append`
or a raised exception; the `try/except` swallows the exception and
prints an error line.  The loop is modelled on a finite schedule of
cycle outcomes: it runs every scheduled cycle (never terminating early)
and collects the error lines it printed. -/

inductive CycleOutcome where
  | ok (slots : List Slot) : CycleOutcome
  | exc (msg : String) : CycleOutcome
deriving DecidableEq, Repr

/-- The `try/except` body: a raised exception is converted into a
printed error line, a normal return prints nothing extra. -/
def cycleBody : CycleOutcome → Option String
  | .ok _ => none
  | .exc e => some ("[FETCHER ERR] " ++ e)

/-- Run the loop over a schedule of cycle outcomes: number of cycles
executed and error lines printed. -/
def fetcher_loop_run : List CycleOutcome → Nat × List String
  | [] => (0, [])
  | o :: os =>
    let r := fetcher_loop_run os
    (r.1 + 1, (cycleBody o).toList ++ r.2)

/-! ## Concrete sample data for witnesses -/

/-- A resolved market entry with a real token pair. -/
def entOk : MarketEntry := ⟨"u", "tokY", "tokN"⟩

/-- A market entry whose yes-token is the `"N/A"` sentinel. -/
def entNA : MarketEntry := ⟨"u", "N/A", "tokN"⟩

/-- A slot with exactly 3 of 4 valid yes-tokens. -/
def slot3of4 : Slot :=
  ⟨"A", [("BTC", entOk), ("ETH", entOk), ("SOL", entOk), ("XRP", entNA)]⟩

/-- A slot with exactly 2 of 4 valid yes-tokens. -/
def slot2of4 : Slot :=
  ⟨"B", [("BTC", entOk), ("ETH", entOk), ("SOL", entNA), ("XRP", entNA)]⟩

/-- A slot with 4 of 4 valid yes-tokens. -/
def slot4of4 : Slot :=
  ⟨"A", [("BTC", entOk), ("ETH", entOk), ("SOL", entOk), ("XRP", entOk)]⟩

/-- A log content that already lists every label the generator emits for
reference time 1704067200. -/
def c2File : String :=
  joinWith "\n" ((slotMetas 1704067200).map fun m => "🕒 Slot: " ++ m.label)

/-- A concrete well-formed slot for the round-trip witness. -/
def slotRT : Slot :=
  ⟨"2023-12-31 07:15 PM EST", [("BTC", entOk), ("ETH", entNA)]⟩

/-- Decidable check that the civil conversion round-trips on day number
`19722 + k` (1 Jan 2024 local range onwards) with in-range components. -/
def rtOK (k : Nat) : Bool :=
  decide (daysFromCivilT (civilFromDays (19722 + k)) = 19722 + k)
    && decide ((civilFromDays (19722 + k)).1 < 10000)
    && decide ((civilFromDays (19722 + k)).2.1 < 100)
    && decide ((civilFromDays (19722 + k)).2.2 < 100)

end MarketFetcher

namespace MarketFetcher

/-! ## General-purpose lemmas -/

theorem takeWhile_append_all {α : Type} (p : α → Bool) {l₁ : List α} (l₂ : List α)
    (h : ∀ a ∈ l₁, p a = true) :
    (l₁ ++ l₂).takeWhile p = l₁ ++ l₂.takeWhile p := by
  induction l₁ with
  | nil => simp
  | cons a l ih =>
    simp only [List.cons_append, List.takeWhile_cons, h a (by simp), if_true]
    rw [ih fun x hx => h x (by simp [hx])]

theorem dropWhile_append_all {α : Type} (p : α → Bool) {l₁ : List α} (l₂ : List α)
    (h : ∀ a ∈ l₁, p a = true) :
    (l₁ ++ l₂).dropWhile p = l₂.dropWhile p := by
  induction l₁ with
  | nil => simp
  | cons a l ih =>
    simp only [List.cons_append, List.dropWhile_cons, h a (by simp), if_true]
    exact ih fun x hx => h x (by simp [hx])

theorem isEmpty_false_of_pos {α : Type} {l : List α} (h : 0 < l.length) :
    l.isEmpty = false := by
  cases l with
  | nil => simp at h
  | cons a t => rfl

theorem mem_of_lookup {l : List (String × MarketEntry)} {a : String} {b : MarketEntry}
    (h : l.lookup a = some b) : (a, b) ∈ l := by
  induction l with
  | nil => simp [List.lookup] at h
  | cons p rest ih =>
    obtain ⟨k, v⟩ := p
    by_cases hk : a = k
    · subst hk
      simp [List.lookup] at h
      simp [h]
    · have hne : (a == k) = false := beq_false_of_ne hk
      simp [List.lookup, hne] at h
      exact List.mem_cons_of_mem _ (ih h)

/-! ## Claim C1 — dedup & validator contract -/

/-- C1: for every resolved slot, processed in emission order, the slot is
discarded when its label is in the existing label set; otherwise it is
accepted exactly when at least 3 of its market entries have a yes-token
outside the sentinel set (in particular a slot with valid-count 2 is
always rejected), and the accepted slots preserve emission order (they
form a sublist of the fetched sequence). -/
theorem c1_dedup_validator (existing : List String) (fetched : List Slot) :
    (newSlotsOf existing fetched).Sublist fetched
    ∧ (∀ slot ∈ fetched, slot.label ∈ existing →
        slot ∉ newSlotsOf existing fetched)
    ∧ (∀ slot ∈ fetched, slot.label ∉ existing →
        (slot ∈ newSlotsOf existing fetched ↔ 3 ≤ validTokens slot))
    ∧ (∀ slot, validTokens slot = 2 → slot ∉ newSlotsOf existing fetched) := by
  refine ⟨List.filter_sublist _, ?_, ?_, ?_⟩
  · intro slot _ hl hmem
    rw [newSlotsOf, List.mem_filter] at hmem
    simp [hl] at hmem
  · intro slot hs hl
    rw [newSlotsOf, List.mem_filter]
    simp [hs, hl]
  · intro slot hv hmem
    rw [newSlotsOf, List.mem_filter] at hmem
    simp [hv] at hmem

theorem c1_dedup_validator_witness :
    slot3of4 ∈ newSlotsOf [] [slot3of4, slot2of4]
    ∧ slot2of4 ∉ newSlotsOf [] [slot3of4, slot2of4] := by
  have h := c1_dedup_validator [] [slot3of4, slot2of4]
  exact ⟨(h.2.2.1 slot3of4 (by decide) (by decide)).mpr (by decide),
    h.2.2.2 slot2of4 (by decide)⟩

/-! ## Claim C4 — per-task failure containment -/

/-- C4: any error (connection failure, non-200 status, malformed body)
yields both tokens `"Error"`; on a 200 response whose decoded token
array has fewer than 2 elements the missing positions are `"N/A"`, with
the first element going to the yes-token and the second to the no-token.
The lookup is a total function of the response, so no outcome escapes
the task boundary. -/
theorem c4_failure_containment (slug lbl : String) :
    (fetch_single_market slug lbl .netError = (lbl, eventUrl slug, "Error", "Error"))
    ∧ (∀ status body, status ≠ 200 →
        fetch_single_market slug lbl (.httpResp status body)
          = (lbl, eventUrl slug, "Error", "Error"))
    ∧ (fetch_single_market slug lbl (.httpResp 200 (.error ()))
        = (lbl, eventUrl slug, "Error", "Error"))
    ∧ (fetch_single_market slug lbl (.httpResp 200 (.ok []))
        = (lbl, eventUrl slug, "N/A", "N/A"))
    ∧ (∀ t, fetch_single_market slug lbl (.httpResp 200 (.ok [t]))
        = (lbl, eventUrl slug, t, "N/A"))
    ∧ (∀ t1 t2 rest, fetch_single_market slug lbl (.httpResp 200 (.ok (t1 :: t2 :: rest)))
        = (lbl, eventUrl slug, t1, t2)) := by
  refine ⟨rfl, ?_, rfl, rfl, ?_, ?_⟩
  · intro status body h
    simp [fetch_single_market, h]
  · intro t
    simp [fetch_single_market]
  · intro t1 t2 rest
    simp [fetch_single_market]

theorem c4_failure_containment_witness :
    fetch_single_market "s" "BTC" (.httpResp 404 (.ok ["x", "y"]))
      = ("BTC", eventUrl "s", "Error", "Error") :=
  (c4_failure_containment "s" "BTC").2.1 404 (.ok ["x", "y"]) (by decide)

/-! ## Claim C5 — resolver output completeness -/

/-- C5: whatever subset of lookups produced results (the `results` map
models any pattern of per-task failure and any completion order), the
resolver returns exactly COUNT = 10 slots, each slot's markets carry
exactly one entry per tracked asset in the fixed order, and every entry
is the task's result or the `{"url": "", "yes": "Error", "no": "Error"}`
sentinel when the pair produced no result. -/
theorem c5_resolver_completeness (now : Nat) (results : ResolverResults) :
    (fetch_upcoming_slots now results).length = 10
    ∧ ∀ i (h : i < (fetch_upcoming_slots now results).length),
        (((fetch_upcoming_slots now results).get ⟨i, h⟩).markets.map Prod.fst
          = ["BTC", "ETH", "SOL", "XRP"])
        ∧ ∀ c e, (c, e) ∈ ((fetch_upcoming_slots now results).get ⟨i, h⟩).markets →
            e = (results i c).getD ⟨"", "Error", "Error"⟩ := by
  constructor
  · simp [fetch_upcoming_slots, COUNT]
  · intro i h
    have hget : (fetch_upcoming_slots now results).get ⟨i, h⟩
        = ⟨(slotMeta now (i + 1)).label, slotMarkets results i⟩ := by
      simp [fetch_upcoming_slots, COUNT, List.get_eq_getElem]
    rw [hget]
    constructor
    · show (slotMarkets results i).map Prod.fst = _
      rw [slotMarkets, List.map_map]
      show CRYPTOS.map (fun coin => pyUpper coin) = ["BTC", "ETH", "SOL", "XRP"]
      decide
    · intro c e hmem
      rw [show Slot.markets ⟨(slotMeta now (i + 1)).label, slotMarkets results i⟩
            = slotMarkets results i from rfl, slotMarkets] at hmem
      rcases List.mem_map.mp hmem with ⟨coin, hcoin, heq⟩
      cases heq
      rfl

theorem c5_resolver_completeness_witness :
    (fetch_upcoming_slots 0 (fun _ _ => none)).length = 10
    ∧ ((fetch_upcoming_slots 0 (fun _ _ => none)).get
        ⟨0, by decide⟩).markets.map Prod.fst = ["BTC", "ETH", "SOL", "XRP"] :=
  ⟨(c5_resolver_completeness 0 (fun _ _ => none)).1,
   ((c5_resolver_completeness 0 (fun _ _ => none)).2 0 (by decide)).1⟩

/-! ## Claim C6 — slot generator -/

/-- C6: for every reference time `now`, the generated timestamps are
exactly `base + i·900` for `i = 1..10` with `base = now - now % 900`,
they are strictly increasing, and each is strictly greater than `now`. -/
theorem c6_slot_generation (now : Nat) :
    slotTimestamps now = (List.range 10).map (fun j => (now - now % 900) + (j + 1) * 900)
    ∧ List.Pairwise (fun a b => a < b) (slotTimestamps now)
    ∧ ∀ t ∈ slotTimestamps now, now < t := by
  have h1 : slotTimestamps now
      = (List.range 10).map (fun j => (now - now % 900) + (j + 1) * 900) := by
    simp [slotTimestamps, slotMetas, slotMeta, slotTimestamp, last_interval,
      INTERVAL, COUNT, List.map_map]
  refine ⟨h1, ?_, ?_⟩
  · rw [h1, List.pairwise_map]
    exact (List.pairwise_lt_range 10).imp fun hab => by omega
  · intro t ht
    rw [h1] at ht
    simp only [List.mem_map, List.mem_range] at ht
    obtain ⟨j, _, rfl⟩ := ht
    have := Nat.mod_lt now (show 0 < 900 by norm_num)
    omega

theorem c6_slot_generation_witness :
    (1800 : Nat) ∈ slotTimestamps 1000 ∧ 1000 < 1800 :=
  ⟨by decide, (c6_slot_generation 1000).2.2 1800 (by decide)⟩

/-! ## Claim C9 — scheduler fault containment -/

/-- C9: the loop body catches any exception a cycle raises, so the
scheduler executes every scheduled cycle regardless of failures (a
failed cycle never halts subsequent cycles); error lines are exactly the
ones printed for the failing cycles. -/
theorem c9_scheduler_containment (outcomes : List CycleOutcome) :
    (fetcher_loop_run outcomes).1 = outcomes.length
    ∧ (fetcher_loop_run outcomes).2 = outcomes.filterMap cycleBody := by
  induction outcomes with
  | nil => exact ⟨rfl, rfl⟩
  | cons o os ih =>
    cases o <;>
      simp [fetcher_loop_run, cycleBody, List.filterMap_cons, ih.1, ih.2]

/-! ## Claim C10 — intra-batch dedup gap -/

/-- C10: within one cycle the label set read at the start is never
extended, so two slots of the same fetched batch sharing a label that is
not yet logged, both meeting quorum, are both accepted (in order) and
both get appended in that same cycle. -/
theorem c10_intra_batch_gap (existing : List String) (pre mid post : List Slot)
    (s1 s2 : Slot) (file : Option String)
    (hlab : s1.label = s2.label) (hnot : s1.label ∉ existing)
    (hq1 : 3 ≤ validTokens s1) (hq2 : 3 ≤ validTokens s2) :
    newSlotsOf existing (pre ++ s1 :: mid ++ s2 :: post)
      = newSlotsOf existing pre
        ++ s1 :: (newSlotsOf existing mid ++ s2 :: newSlotsOf existing post)
    ∧ 2 ≤ (newSlotsOf existing (pre ++ s1 :: mid ++ s2 :: post)).length
    ∧ 2 ≤ (append_new_slots file (newSlotsOf existing (pre ++ s1 :: mid ++ s2 :: post))).2 := by
  have hp1 : (!(existing.contains s1.label) && decide (3 ≤ validTokens s1)) = true := by
    simp [hq1, hnot]
  have hp2 : (!(existing.contains s2.label) && decide (3 ≤ validTokens s2)) = true := by
    rw [← hlab] at *
    simp [hq2, hnot]
  have hsplit : newSlotsOf existing (pre ++ s1 :: mid ++ s2 :: post)
      = newSlotsOf existing pre
        ++ s1 :: (newSlotsOf existing mid ++ s2 :: newSlotsOf existing post) := by
    simp only [newSlotsOf, List.filter_append, List.filter_cons, hp1, hp2, if_true]
    simp [List.append_assoc]
  have hlen : 2 ≤ (newSlotsOf existing (pre ++ s1 :: mid ++ s2 :: post)).length := by
    rw [hsplit]
    simp [List.length_append]
    omega
  refine ⟨hsplit, hlen, ?_⟩
  have hne : (newSlotsOf existing (pre ++ s1 :: mid ++ s2 :: post)).isEmpty = false :=
    isEmpty_false_of_pos (by omega)
  simp only [append_new_slots, hne, Bool.false_eq_true, if_false]
  exact hlen

theorem c10_intra_batch_gap_witness :
    newSlotsOf [] ([] ++ slot3of4 :: [] ++ slot4of4 :: [])
      = [] ++ slot3of4 :: ([] ++ slot4of4 :: [])
    ∧ 2 ≤ (append_new_slots none (newSlotsOf [] ([] ++ slot3of4 :: [] ++ slot4of4 :: []))).2 := by
  have h := c10_intra_batch_gap [] [] [] [] slot3of4 slot4of4 none
    (by decide) (by decide) (by decide) (by decide)
  exact ⟨by simpa [newSlotsOf] using h.1, h.2.2⟩

/-! ## Claim C2 — pipeline idempotence -/

/-- C2: when the log already contains the label of every slot the
generator emits for the current reference time (as happens right after a
run that appended them), a further run of the discovery pipeline — with
any remote lookup behaviour — appends nothing: the log is unchanged, the
accepted list is empty, and the appended count is 0. -/
theorem c2_idempotence (file : Option String) (now : Nat) (results : ResolverResults)
    (h : ∀ m ∈ slotMetas now, m.label ∈ get_existing_slot_labels file) :
    discover_and_append file (fetch_upcoming_slots now results) = (file, [], 0) := by
  have hnews : newSlotsOf (get_existing_slot_labels file)
      (fetch_upcoming_slots now results) = [] := by
    rw [newSlotsOf, List.filter_eq_nil_iff]
    intro s hs
    rw [fetch_upcoming_slots] at hs
    rcases List.mem_map.mp hs with ⟨i, hi, rfl⟩
    have hmem : slotMeta now (i + 1) ∈ slotMetas now :=
      List.mem_map.mpr ⟨i, hi, rfl⟩
    have hin := h _ hmem
    simp [hin]
  simp [discover_and_append, hnews]

set_option maxRecDepth 100000 in
theorem c2_idempotence_witness :
    (∀ m ∈ slotMetas 1704067200, m.label ∈ get_existing_slot_labels (some c2File))
    ∧ discover_and_append (some c2File)
        (fetch_upcoming_slots 1704067200 (fun _ _ => none)) = (some c2File, [], 0) :=
  ⟨by decide, c2_idempotence (some c2File) 1704067200 (fun _ _ => none) (by decide)⟩

/-! ## Claim C8 — slot record shape (corrected) -/

/-- C8 counterexample: the slot dict assembled by the resolver (lines
100–107) has exactly the keys `"label"` and `"markets"`; it carries no
`"timestamp"` entry, contradicting the claim that every Slot handed to
the Dedup & Validator carries a `timestamp` field. -/
theorem c8_counterexample :
    (assembledSlotEntries 1704067200 (fun _ _ => none) 0).lookup "timestamp" = none
    ∧ (assembledSlotEntries 1704067200 (fun _ _ => none) 0).map Prod.fst
        = ["label", "markets"] := by
  constructor
  · rfl
  · rfl

/-- C8 (amended): every slot the resolver assembles carries exactly the
fields `label` and `markets` and no `timestamp` field; the
interval-aligned integer epoch second of the slot's window is computed,
but it is kept only in the generator's `slot_meta` record for that
index, where it equals `base + (i+1)·900` and is aligned to the
interval boundary. -/
theorem c8_slot_record_shape (now : Nat) (results : ResolverResults) (i : Nat) :
    (assembledSlotEntries now results i).map Prod.fst = ["label", "markets"]
    ∧ (assembledSlotEntries now results i).lookup "timestamp" = none
    ∧ (slotMeta now (i + 1)).timestamp = (now - now % 900) + (i + 1) * 900
    ∧ (slotMeta now (i + 1)).timestamp % 900 = 0 := by
  refine ⟨rfl, rfl, rfl, ?_⟩
  show (last_interval now + (i + 1) * INTERVAL) % 900 = 0
  rw [last_interval, INTERVAL]
  omega

/-! ## Claim C3 — format/scan round trip -/

theorem scan_nil (fuel : Nat) : scanLabelsF fuel [] = [] := by
  cases fuel <;> rfl

theorem scan_no_clock (fuel : Nat) (cs : List Char) (h : '🕒' ∉ cs) :
    scanLabelsF fuel cs = [] := by
  induction fuel generalizing cs with
  | zero => cases cs <;> rfl
  | succ n ih =>
    cases cs with
    | nil => rfl
    | cons c cs' =>
      have hc : ¬(c = '🕒') := fun he => h (he ▸ List.mem_cons_self c cs')
      simp only [scanLabelsF, if_neg hc]
      exact ih cs' fun hmem => h (List.mem_cons_of_mem _ hmem)

theorem noClock_append {a b : String} (h1 : '🕒' ∉ a.data) (h2 : '🕒' ∉ b.data) :
    '🕒' ∉ (a ++ b).data := by
  intro hmem
  rw [String.data_append] at hmem
  rcases List.mem_append.mp hmem with h | h
  · exact h1 h
  · exact h2 h

theorem noClock_joinWith (lines : List String)
    (h : ∀ s ∈ lines, '🕒' ∉ s.data) : '🕒' ∉ (joinWith "\n" lines).data := by
  induction lines with
  | nil => simp [joinWith]
  | cons s rest ih =>
    cases rest with
    | nil => simpa [joinWith] using h s (by simp)
    | cons t ts =>
      have hj : joinWith "\n" (s :: t :: ts) = s ++ "\n" ++ joinWith "\n" (t :: ts) := rfl
      rw [hj]
      exact noClock_append (noClock_append (h s (by simp)) (by decide))
        (ih fun x hx => h x (by simp [hx]))

/-- One scanner step on a well-formed block: a leading `🕒 Slot: ` line
whose label starts with a non-whitespace character and contains no
newline, followed either by nothing or by a newline and clock-free
text, matches exactly the label. -/
theorem scan_block (lbl tailD : List Char) (c0 : Char) (rest0 : List Char)
    (hlb : lbl = c0 :: rest0) (hc0 : pyWsChar c0 = false) (hnl : '\n' ∉ lbl)
    (htail : tailD = [] ∨ ∃ more, tailD = '\n' :: more) (hnc : '🕒' ∉ tailD)
    (fuel : Nat) (hfuel : 0 < fuel) :
    scanLabelsF fuel
      ('🕒' :: ' ' :: 'S' :: 'l' :: 'o' :: 't' :: ':' :: ' ' :: (lbl ++ tailD)) = [lbl] := by
  subst hlb
  obtain ⟨n, rfl⟩ : ∃ n, fuel = n + 1 := ⟨fuel - 1, by omega⟩
  have hspace : pyWsChar ' ' = true := by decide
  have hS : pyWsChar 'S' = false := by decide
  have hc0n : ¬(c0 = '\n') := by
    intro h
    rw [h] at hc0
    exact absurd hc0 (by decide)
  have hall : ∀ a ∈ (c0 :: rest0 : List Char), (fun x => decide ¬(x = '\n')) a = true := by
    intro a ha
    simp only [decide_eq_true_iff]
    exact fun h => hnl (h ▸ ha)
  have h2 : dropLit ['S', 'l', 'o', 't', ':']
      ('S' :: 'l' :: 'o' :: 't' :: ':' :: ' ' :: ((c0 :: rest0) ++ tailD))
      = some (' ' :: ((c0 :: rest0) ++ tailD)) := rfl
  have h5 : capTry [' '] ((c0 :: rest0) ++ tailD)
      = some (((c0 :: rest0) ++ tailD).takeWhile (fun x => x ≠ '\n'),
              ((c0 :: rest0) ++ tailD).dropWhile (fun x => x ≠ '\n')) := by
    simp only [List.cons_append, capTry, hc0n, if_false]
  have h1 : List.dropWhile pyWsChar
      (' ' :: 'S' :: 'l' :: 'o' :: 't' :: ':' :: ' ' :: ((c0 :: rest0) ++ tailD))
      = 'S' :: 'l' :: 'o' :: 't' :: ':' :: ' ' :: ((c0 :: rest0) ++ tailD) := rfl
  have h3 : List.takeWhile pyWsChar (' ' :: ((c0 :: rest0) ++ tailD)) = [' '] := by
    rw [List.takeWhile_cons, if_pos hspace,
      show ((c0 :: rest0) ++ tailD) = c0 :: (rest0 ++ tailD) from rfl,
      List.takeWhile_cons, if_neg (by simp [hc0])]
  have h4 : List.dropWhile pyWsChar (' ' :: ((c0 :: rest0) ++ tailD))
      = (c0 :: rest0) ++ tailD := by
    rw [List.dropWhile_cons, if_pos hspace,
      show ((c0 :: rest0) ++ tailD) = c0 :: (rest0 ++ tailD) from rfl,
      List.dropWhile_cons, if_neg (by simp [hc0])]
  have hmac : matchAfterClock
      (' ' :: 'S' :: 'l' :: 'o' :: 't' :: ':' :: ' ' :: ((c0 :: rest0) ++ tailD))
      = some ((c0 :: rest0) ++ tailD.takeWhile (fun x => x ≠ '\n'),
              tailD.dropWhile (fun x => x ≠ '\n')) := by
    simp only [matchAfterClock, h1, h2]
    show capTry (List.takeWhile pyWsChar (' ' :: ((c0 :: rest0) ++ tailD))).reverse
        (List.dropWhile pyWsChar (' ' :: ((c0 :: rest0) ++ tailD))) = _
    rw [h3, h4, show ([' '] : List Char).reverse = [' '] from rfl, h5,
      takeWhile_append_all _ _ hall, dropWhile_append_all _ _ hall]
  have hstep : scanLabelsF (n + 1)
      ('🕒' :: ' ' :: 'S' :: 'l' :: 'o' :: 't' :: ':' :: ' ' :: ((c0 :: rest0) ++ tailD))
      = ((c0 :: rest0) ++ tailD.takeWhile (fun x => x ≠ '\n'))
        :: scanLabelsF n (tailD.dropWhile (fun x => x ≠ '\n')) := by
    simp only [scanLabelsF, if_true]
    rw [hmac]
  rcases htail with rfl | ⟨more, rfl⟩
  · rw [hstep]
    simp [scan_nil]
  · rw [hstep]
    have hdw : ('\n' :: more).dropWhile (fun x => x ≠ '\n') = '\n' :: more := by
      simp [List.dropWhile_cons]
    have htw : ('\n' :: more).takeWhile (fun x => x ≠ '\n') = [] := by
      simp [List.takeWhile_cons]
    rw [hdw, htw, scan_no_clock _ _ hnc]
    simp

/-- Scanning a whole formatted block whose first line is
`🕒 Slot: <label>` and whose remaining lines are clock-free yields
exactly the label. -/
theorem findLabels_block (lbl : String) (tls : List String) (c0 : Char) (rest0 : List Char)
    (hlb : lbl.data = c0 :: rest0) (hc0 : pyWsChar c0 = false) (hnl : '\n' ∉ lbl.data)
    (hlines : ∀ s ∈ tls, '🕒' ∉ s.data) :
    findLabels (joinWith "\n" (("🕒 Slot: " ++ lbl) :: tls)) = [lbl] := by
  cases tls with
  | nil =>
    have hdata : (joinWith "\n" [("🕒 Slot: " ++ lbl)]).data
        = '🕒' :: ' ' :: 'S' :: 'l' :: 'o' :: 't' :: ':' :: ' ' :: (lbl.data ++ []) := by
      rw [List.append_nil]
      show ("🕒 Slot: " ++ lbl).data = _
      rw [String.data_append]
      rfl
    simp only [findLabels]
    rw [hdata, scan_block lbl.data [] c0 rest0 hlb hc0 hnl (Or.inl rfl) (by simp)
      _ (by simp)]
    rfl
  | cons l ls =>
    have hdata : (joinWith "\n" (("🕒 Slot: " ++ lbl) :: l :: ls)).data
        = '🕒' :: ' ' :: 'S' :: 'l' :: 'o' :: 't' :: ':' :: ' '
          :: (lbl.data ++ ('\n' :: (joinWith "\n" (l :: ls)).data)) := by
      show (("🕒 Slot: " ++ lbl) ++ "\n" ++ joinWith "\n" (l :: ls)).data = _
      rw [String.data_append, String.data_append, String.data_append]
      show (("🕒 Slot: " : String).data ++ lbl.data) ++ ['\n'] ++ _ = _
      rw [show ("🕒 Slot: " : String).data
        = ['🕒', ' ', 'S', 'l', 'o', 't', ':', ' '] from rfl]
      simp [List.append_assoc]
    have hnc : '🕒' ∉ ('\n' :: (joinWith "\n" (l :: ls)).data) := by
      intro hmem
      rcases List.mem_cons.mp hmem with h | h
      · exact absurd h (by decide)
      · exact noClock_joinWith (l :: ls) hlines h
    simp only [findLabels]
    rw [hdata, scan_block lbl.data ('\n' :: (joinWith "\n" (l :: ls)).data) c0 rest0
      hlb hc0 hnl (Or.inr ⟨_, rfl⟩) hnc _ (by simp)]
    rfl

/-- C3: for every Slot whose fields are well formed (the label is
nonempty, does not start with whitespace, and contains no newline; the
market fields contain no `🕒`), formatting it with the block
formatter and then extracting labels with the persisted-state reader's
pattern yields exactly the singleton `[slot.label]`. -/
theorem c3_round_trip (slot : Slot)
    (hne : slot.label.data ≠ [])
    (hws : ∀ c ∈ slot.label.data.take 1, pyWsChar c = false)
    (hnl : '\n' ∉ slot.label.data)
    (hm : ∀ p ∈ slot.markets,
      '🕒' ∉ p.2.url.data ∧ '🕒' ∉ p.2.yes.data ∧ '🕒' ∉ p.2.no.data) :
    findLabels (format_slot_block slot) = [slot.label] := by
  obtain ⟨c0, rest0, hlb⟩ := List.exists_cons_of_ne_nil hne
  have hc0 : pyWsChar c0 = false := hws c0 (by rw [hlb]; simp)
  have hlines : ∀ s ∈ (["BTC", "ETH", "SOL", "XRP"].flatMap fun crypto =>
      match slot.markets.lookup crypto with
      | none => []
      | some m =>
        ["   " ++ crypto ++ ": " ++ m.url,
         "        ✅ YES: " ++ m.yes,
         "        ❌ NO : " ++ m.no]), '🕒' ∉ s.data := by
    intro s hs
    rcases List.mem_flatMap.mp hs with ⟨crypto, hcr, hsin⟩
    cases hlk : slot.markets.lookup crypto with
    | none =>
      rw [hlk] at hsin
      simp at hsin
    | some m =>
      rw [hlk] at hsin
      have hent := hm (crypto, m) (mem_of_lookup hlk)
      have hcr4 : '🕒' ∉ crypto.data := by
        fin_cases hcr <;> decide
      simp only [List.mem_cons, List.not_mem_nil, or_false] at hsin
      rcases hsin with rfl | rfl | rfl
      · exact noClock_append (noClock_append (noClock_append (by decide) hcr4)
          (by decide)) hent.1
      · exact noClock_append (by decide) hent.2.1
      · exact noClock_append (by decide) hent.2.2
  unfold format_slot_block
  exact findLabels_block slot.label _ c0 rest0 hlb hc0 hnl hlines

theorem c3_round_trip_witness :
    (slotRT.label.data ≠ []
      ∧ (∀ c ∈ slotRT.label.data.take 1, pyWsChar c = false)
      ∧ '\n' ∉ slotRT.label.data
      ∧ ∀ p ∈ slotRT.markets,
          '🕒' ∉ p.2.url.data ∧ '🕒' ∉ p.2.yes.data ∧ '🕒' ∉ p.2.no.data)
    ∧ findLabels (format_slot_block slotRT) = [slotRT.label] :=
  ⟨⟨by decide, by decide, by decide, by decide⟩,
   c3_round_trip slotRT (by decide) (by decide) (by decide) (by decide)⟩

/-! ## Claim C7 — label/timestamp injectivity (corrected)

The display label hard-codes the suffix `EST` and renders the wall-clock
time, so the repeated hour of the daylight-saving fall-back produces the
same label for two distinct aligned timestamps.  Restricted to
timestamps whose UTC offset agrees (both EST or both EDT), the label is
injective; that is proved below for the 2024–2028 operating window, via
a verified round-trip of the civil-date conversion on that range. -/

set_option maxRecDepth 1000000 in
theorem civil_roundtrip_all : ((List.range 1828).all rtOK) = true := by decide

theorem civil_roundtrip (k : Nat) (hk : k < 1828) :
    daysFromCivilT (civilFromDays (19722 + k)) = 19722 + k
    ∧ (civilFromDays (19722 + k)).1 < 10000
    ∧ (civilFromDays (19722 + k)).2.1 < 100
    ∧ (civilFromDays (19722 + k)).2.2 < 100 := by
  have h := List.all_eq_true.mp civil_roundtrip_all k (List.mem_range.mpr hk)
  rw [rtOK, Bool.and_eq_true, Bool.and_eq_true, Bool.and_eq_true] at h
  exact ⟨of_decide_eq_true h.1.1.1, of_decide_eq_true h.1.1.2,
    of_decide_eq_true h.1.2, of_decide_eq_true h.2⟩

set_option maxRecDepth 10000 in
theorem digitChar_inj : ∀ a < 10, ∀ b < 10, digitChar a = digitChar b → a = b := by
  decide

set_option maxRecDepth 100000 in
theorem pad2_inj : ∀ a < 100, ∀ b < 100, pad2 a = pad2 b → a = b := by
  decide

set_option maxRecDepth 100000 in
theorem hourAP_inj : ∀ a < 24, ∀ b < 24, hour12 a = hour12 b →
    ((a < 12) ↔ (b < 12)) → a = b := by
  decide

theorem pad4_inj (a b : Nat) (ha : a < 10000) (hb : b < 10000)
    (h : pad4 a = pad4 b) : a = b := by
  simp only [pad4, List.cons.injEq, and_true] at h
  obtain ⟨h1, h2, h3, h4⟩ := h
  have e1 := digitChar_inj _ (by omega) _ (by omega) h1
  have e2 := digitChar_inj _ (by omega) _ (by omega) h2
  have e3 := digitChar_inj _ (by omega) _ (by omega) h3
  have e4 := digitChar_inj _ (by omega) _ (by omega) h4
  omega

theorem etOffset_cases (ts : Nat) : etOffset ts = 14400 ∨ etOffset ts = 18000 := by
  simp only [etOffset]
  split
  · exact Or.inl rfl
  · exact Or.inr rfl

theorem hour12_lt (h : Nat) : hour12 h < 100 := by
  simp only [hour12]
  split <;> omega

/-- C7 counterexample: two distinct interval-aligned timestamps — 05:30
and 06:30 UTC on 2 November 2025, the daylight-saving fall-back — carry
the same display label `2025-11-02 01:30 AM EST`, so the label is not
1:1 with the timestamp. -/
theorem c7_counterexample :
    (1762061400 : Nat) ≠ 1762065000
    ∧ (1762061400 : Nat) % 900 = 0 ∧ (1762065000 : Nat) % 900 = 0
    ∧ displayTime 1762061400 = displayTime 1762065000 := by
  refine ⟨by decide, by decide, by decide, ?_⟩
  decide

/-- C7 (amended): distinct interval-aligned timestamps get distinct
display labels provided their UTC offsets under the zone rules agree
(the exception being the repeated fall-back hour); stated for the
engine's 2024–2028 operating window: if two aligned timestamps in
[2024-01-01T00:00Z, 2029-01-01T00:00Z) with equal offsets format to
the same label, they are equal. -/
theorem c7_label_injective_same_offset (t1 t2 : Nat)
    (ha1 : t1 % 900 = 0) (ha2 : t2 % 900 = 0)
    (hlo1 : 1704067200 ≤ t1) (hhi1 : t1 < 1861920000)
    (hlo2 : 1704067200 ≤ t2) (hhi2 : t2 < 1861920000)
    (hoff : etOffset t1 = etOffset t2)
    (hlab : displayTime t1 = displayTime t2) : t1 = t2 := by
  have ho1 := etOffset_cases t1
  have ho2 := etOffset_cases t2
  have hle1 : localSecs t1 = t1 - etOffset t1 := rfl
  have hle2 : localSecs t2 = t2 - etOffset t2 := rfl
  -- day-number range of both local times
  have hd1lo : 19722 ≤ localSecs t1 / 86400 := by
    rw [Nat.le_div_iff_mul_le (by norm_num)]
    omega
  have hd1hi : localSecs t1 / 86400 < 21550 := by
    rw [Nat.div_lt_iff_lt_mul (by norm_num)]
    omega
  have hd2lo : 19722 ≤ localSecs t2 / 86400 := by
    rw [Nat.le_div_iff_mul_le (by norm_num)]
    omega
  have hd2hi : localSecs t2 / 86400 < 21550 := by
    rw [Nat.div_lt_iff_lt_mul (by norm_num)]
    omega
  have RT1 : daysFromCivilT (civilFromDays (localSecs t1 / 86400)) = localSecs t1 / 86400
      ∧ (civilFromDays (localSecs t1 / 86400)).1 < 10000
      ∧ (civilFromDays (localSecs t1 / 86400)).2.1 < 100
      ∧ (civilFromDays (localSecs t1 / 86400)).2.2 < 100 := by
    have h := civil_roundtrip (localSecs t1 / 86400 - 19722) (by omega)
    rwa [show 19722 + (localSecs t1 / 86400 - 19722) = localSecs t1 / 86400
      by omega] at h
  have RT2 : daysFromCivilT (civilFromDays (localSecs t2 / 86400)) = localSecs t2 / 86400
      ∧ (civilFromDays (localSecs t2 / 86400)).1 < 10000
      ∧ (civilFromDays (localSecs t2 / 86400)).2.1 < 100
      ∧ (civilFromDays (localSecs t2 / 86400)).2.2 < 100 := by
    have h := civil_roundtrip (localSecs t2 / 86400 - 19722) (by omega)
    rwa [show 19722 + (localSecs t2 / 86400 - 19722) = localSecs t2 / 86400
      by omega] at h
  -- decompose the label characters
  have hch : displayChars t1 = displayChars t2 := congrArg String.data hlab
  simp only [displayChars, dispDate, pad4, pad2, List.cons_append, List.nil_append,
    List.cons.injEq, and_true, true_and] at hch
  obtain ⟨hy1, hy2, hy3, hy4, hmo1, hmo2, hdd1, hdd2, hhh1, hhh2, hmm1, hmm2, hap⟩ := hch
  -- year, month, day of month
  have hyear : (civilFromDays (localSecs t1 / 86400)).1
      = (civilFromDays (localSecs t2 / 86400)).1 :=
    pad4_inj _ _ RT1.2.1 RT2.2.1 (by simp [pad4, hy1, hy2, hy3, hy4])
  have hmonth : (civilFromDays (localSecs t1 / 86400)).2.1
      = (civilFromDays (localSecs t2 / 86400)).2.1 :=
    pad2_inj _ RT1.2.2.1 _ RT2.2.2.1 (by simp [pad2, hmo1, hmo2])
  have hdom : (civilFromDays (localSecs t1 / 86400)).2.2
      = (civilFromDays (localSecs t2 / 86400)).2.2 :=
    pad2_inj _ RT1.2.2.2 _ RT2.2.2.2 (by simp [pad2, hdd1, hdd2])
  -- hour and minute
  have hhb1 : dispHour t1 < 24 := by
    have := Nat.mod_lt (localSecs t1) (show 0 < 86400 by norm_num)
    simp only [dispHour]
    omega
  have hhb2 : dispHour t2 < 24 := by
    have := Nat.mod_lt (localSecs t2) (show 0 < 86400 by norm_num)
    simp only [dispHour]
    omega
  have h12eq : hour12 (dispHour t1) = hour12 (dispHour t2) :=
    pad2_inj _ (hour12_lt _) _ (hour12_lt _) (by simp [pad2, hhh1, hhh2])
  have hiff : (dispHour t1 < 12) ↔ (dispHour t2 < 12) := by
    by_cases h1 : dispHour t1 < 12 <;> by_cases h2 : dispHour t2 < 12 <;>
      simp [h1, h2] at hap ⊢
  have hhour : dispHour t1 = dispHour t2 := hourAP_inj _ hhb1 _ hhb2 h12eq hiff
  have hminb1 : dispMinute t1 < 100 := by
    simp only [dispMinute]
    omega
  have hminb2 : dispMinute t2 < 100 := by
    simp only [dispMinute]
    omega
  have hmin : dispMinute t1 = dispMinute t2 :=
    pad2_inj _ hminb1 _ hminb2 (by simp [pad2, hmm1, hmm2])
  -- seconds of day agree
  have hsod : localSecs t1 % 86400 = localSecs t2 % 86400 := by
    have e1 : dispHour t1 = localSecs t1 % 86400 / 3600 := rfl
    have e2 : dispHour t2 = localSecs t2 % 86400 / 3600 := rfl
    have e3 : dispMinute t1 = localSecs t1 % 86400 % 3600 / 60 := rfl
    have e4 : dispMinute t2 = localSecs t2 % 86400 % 3600 / 60 := rfl
    omega
  -- day numbers agree
  have hdayeq : localSecs t1 / 86400 = localSecs t2 / 86400 := by
    have htrip : civilFromDays (localSecs t1 / 86400)
        = civilFromDays (localSecs t2 / 86400) :=
      Prod.ext_iff.mpr ⟨hyear, Prod.ext_iff.mpr ⟨hmonth, hdom⟩⟩
    calc localSecs t1 / 86400
        = daysFromCivilT (civilFromDays (localSecs t1 / 86400)) := RT1.1.symm
      _ = daysFromCivilT (civilFromDays (localSecs t2 / 86400)) := by rw [htrip]
      _ = localSecs t2 / 86400 := RT2.1
  omega

theorem c7_label_injective_same_offset_witness :
    ((1704070800 : Nat) % 900 = 0 ∧ 1704067200 ≤ (1704070800 : Nat)
      ∧ (1704070800 : Nat) < 1861920000
      ∧ etOffset 1704070800 = etOffset 1704070800
      ∧ displayTime 1704070800 = displayTime 1704070800)
    ∧ (1704070800 : Nat) = 1704070800 :=
  ⟨⟨by decide, by decide, by decide, rfl, rfl⟩,
   c7_label_injective_same_offset 1704070800 1704070800 (by decide) (by decide)
     (by decide) (by decide) (by decide) (by decide) rfl rfl⟩

end MarketFetcher
